import Mathlib

/-
  Translation engine of the on-device translator (translator.cpp / translator.hpp):
  `TranslationEngine::init` and `TranslationEngine::translate`.

  Conventions of the embedding
  * A `std::string` holding text is the list of its bytes (`Bytes`); file paths, on which the
    code only concatenates, tests emptiness and opens files, are `String`s.
  * The inference runtime, the tokenizers and the file system are parameters (`Externals`).
    A collaborator that may throw returns `Except`; the only handler in the code is
    `catch (const std::exception&)`, and the collaborators throw nothing else.
  * Logging has no effect on the results and is left out.
-/

namespace Translator

/-- The bytes of a `std::string`. -/
abbrev Bytes := List Nat

/-- The bytes of an ASCII string literal of the source. -/
def ascii (s : String) : Bytes := s.data.map Char.toNat

/-- The UTF-8 bytes of U+2581, the word-boundary marker of the tokenizer. -/
def marker : Bytes := [0xE2, 0x96, 0x81]

/-- The `for` loop of the post-processing step of `translate`: `i` is the loop index,
`final_text` and `last_was_space` are the two locals; `fuel` bounds the iterations left. -/
def replaceLoop (decoded_text : Bytes) : Nat → Nat → Bytes → Bool → Bytes
  | 0, _, final_text, _ => final_text
  | fuel + 1, i, final_text, last_was_space =>
    if i < decoded_text.length then
      if i + 2 < decoded_text.length ∧ decoded_text.getD i 0 = 0xE2 ∧
          decoded_text.getD (i + 1) 0 = 0x96 ∧ decoded_text.getD (i + 2) 0 = 0x81 then
        replaceLoop decoded_text fuel (i + 2 + 1)
          (if !last_was_space && !final_text.isEmpty then final_text ++ [32] else final_text) true
      else
        replaceLoop decoded_text fuel (i + 1) (final_text ++ [decoded_text.getD i 0]) false
    else final_text

/-- The loop run from `i = 0` with empty `final_text`; every iteration advances `i`, so
`decoded_text.length` iterations are enough (see `replaceLoop_fuel`). -/
def replaceMarkers (decoded_text : Bytes) : Bytes :=
  replaceLoop decoded_text decoded_text.length 0 [] false

/-- The characters of the literal `" \t\n\r"`. -/
def trimSet : Bytes := [32, 9, 10, 13]

/-- `std::string::find_first_not_of(chars)`; `none` is `npos`. -/
def find_first_not_of : Bytes → Bytes → Option Nat
  | [], _ => none
  | c :: rest, chars =>
    if c ∈ chars then (find_first_not_of rest chars).map (· + 1) else some 0

/-- `std::string::find_last_not_of(chars)`; `none` is `npos`. -/
def find_last_not_of : Bytes → Bytes → Option Nat
  | [], _ => none
  | c :: rest, chars =>
    match find_last_not_of rest chars with
    | some k => some (k + 1)
    | none => if c ∈ chars then none else some 0

/-- `std::string::substr(pos, n)` for `pos` within the string. -/
def substr (s : Bytes) (pos n : Nat) : Bytes := (s.drop pos).take n

/-- The "Trim whitespace" step of `translate`. -/
def trimWhitespace (final_text : Bytes) : Bytes :=
  match find_first_not_of final_text trimSet, find_last_not_of final_text trimSet with
  | some start, some stop => substr final_text start (stop - start + 1)
  | _, _ => []

/-- The whole post-processing of `translate`: marker replacement, then trimming. -/
def postProcess (decoded_text : Bytes) : Bytes :=
  trimWhitespace (replaceMarkers decoded_text)

/-- The decoding options that `translate` fills in before calling the runtime. -/
structure TranslationOptions where
  max_decoding_length : Nat
  beam_size : Nat
  repetition_penalty : Rat
  no_repeat_ngram_size : Nat
  end_token : Bytes
  return_end_token : Bool
  min_decoding_length : Nat
  disable_unk : Bool

/-- The values assigned to the options in `translate`. -/
def options : TranslationOptions :=
  { max_decoding_length := 100, beam_size := 4, repetition_penalty := 3 / 2,
    no_repeat_ngram_size := 3, end_token := ascii "</s>", return_end_token := false,
    min_decoding_length := 1, disable_unk := true }

/-- The external collaborators of the engine. A call that can throw a `std::exception`
returns `Except.error what`, where `what` is the text of `e.what()`. -/
structure Externals (T SP : Type) where
  /-- `ctranslate2::Translator(model_dir)` -/
  newTranslator : String → Except Bytes T
  /-- `std::ifstream(path).good()` -/
  fileGood : String → Bool
  /-- a default-constructed `sentencepiece::SentencePieceProcessor` -/
  newProcessor : SP
  /-- `SentencePieceProcessor::Load(path)`: `status.ok()` (or the exception thrown) and the
  processor after the call -/
  Load : SP → String → Except Bytes Bool × SP
  /-- `SentencePieceProcessor::Encode(text, &tokens)`: the tokens written -/
  Encode : SP → Bytes → Except Bytes (List Bytes)
  /-- `Translator::translate_batch(batch, options)`: one entry per result, each entry being
  what `output()` of that result gives -/
  translate_batch : T → List (List Bytes) → TranslationOptions →
    Except Bytes (List (Except Bytes (List Bytes)))
  /-- `SentencePieceProcessor::Decode(tokens, &text)`: `status.ok()` and the text written -/
  Decode : SP → List Bytes → Except Bytes (Bool × Bytes)

/-- The fields of `class TranslationEngine`, with their default member initialisers. -/
structure TranslationEngine (T SP : Type) where
  ready : Bool := false
  has_separate_vocabs : Bool := false
  translator : Option T := none
  sp_source : Option SP := none
  sp_target : Option SP := none

/-- The locals `source_vocab`, `target_vocab` and the field `has_separate_vocabs` after the
vocabulary search of `init`. -/
structure VocabPaths where
  source_vocab : String
  target_vocab : String
  has_separate_vocabs : Bool
  deriving DecidableEq

/-- The vector `shared_candidates` of `init`, in its order. -/
def shared_candidates (model_dir : String) : List String :=
  [model_dir ++ "/vocab.spm", model_dir ++ "/sentencepiece.model", model_dir ++ "/spm.model",
    model_dir ++ "/source.spm", model_dir ++ "/target.spm"]

/-- The vocabulary search of `init` ("Find vocabulary files"): `has_separate_vocabs` is the
value of the field before the search. -/
def resolveVocab (fileGood : String → Bool) (model_dir : String) (has_separate_vocabs : Bool) :
    VocabPaths :=
  if fileGood (model_dir ++ "/source.spm") && fileGood (model_dir ++ "/target.spm") then
    { source_vocab := model_dir ++ "/source.spm", target_vocab := model_dir ++ "/target.spm",
      has_separate_vocabs := true }
  else
    match (shared_candidates model_dir).find? fileGood with
    | some candidate =>
      { source_vocab := candidate, target_vocab := candidate, has_separate_vocabs := false }
    | none => { source_vocab := "", target_vocab := "", has_separate_vocabs := has_separate_vocabs }

/-- The rest of `init` once the vocabulary paths are known: the emptiness check, the two
`Load` calls on the freshly constructed processors and the `ready` flag. A field written
before a failing step keeps its new value. -/
def loadTokenizers {T SP : Type} (x : Externals T SP) (e : TranslationEngine T SP)
    (source_vocab target_vocab : String) : Bool × TranslationEngine T SP :=
  if source_vocab.isEmpty || target_vocab.isEmpty then (false, e)
  else
    match x.Load x.newProcessor source_vocab with
    | (.error _, sp) => (false, { e with sp_source := some sp })
    | (.ok ok, sp) =>
      if !ok then (false, { e with sp_source := some sp })
      else
        match x.Load x.newProcessor target_vocab with
        | (.error _, sp2) => (false, { e with sp_source := some sp, sp_target := some sp2 })
        | (.ok ok2, sp2) =>
          if !ok2 then (false, { e with sp_source := some sp, sp_target := some sp2 })
          else (true, { e with sp_source := some sp, sp_target := some sp2, ready := true })

/-- `TranslationEngine::init`: the value returned and the engine afterwards. When the
constructor of the model throws, nothing has been assigned yet; `make_unique` never returns
null, so the `if (!translator)` branch is dead. -/
def init {T SP : Type} (x : Externals T SP) (e : TranslationEngine T SP) (model_dir : String) :
    Bool × TranslationEngine T SP :=
  match x.newTranslator model_dir with
  | .error _ => (false, e)
  | .ok t =>
    let v := resolveVocab x.fileGood model_dir e.has_separate_vocabs
    loadTokenizers x
      { e with translator := some t, sp_source := some x.newProcessor,
               sp_target := some x.newProcessor, has_separate_vocabs := v.has_separate_vocabs }
      v.source_vocab v.target_vocab

/-- Successive `init` calls on one engine: the values returned and the engine at the end. -/
def initSeq {T SP : Type} (x : Externals T SP) (e : TranslationEngine T SP) :
    List String → List Bool × TranslationEngine T SP
  | [] => ([], e)
  | model_dir :: rest =>
    let r := init x e model_dir
    let rs := initSeq x r.2 rest
    (r.1 :: rs.1, rs.2)

/-- The `return` statement through which a call of `translate` leaves. -/
inductive Exit where
  | notReady | emptyInput | emptyResult | noTokens | decodeFailed | translated | exception
  deriving DecidableEq

/-- The exits that return a string built from the "ERROR: " literal. -/
def Exit.failed : Exit → Bool
  | .notReady | .emptyResult | .decodeFailed | .exception => true
  | .emptyInput | .noTokens | .translated => false

/-- A call made to an external collaborator during `translate`. -/
inductive Call where
  | Encode | translate_batch | Decode
  deriving DecidableEq

/-- What a call of `translate` did: where it returned, the collaborators it invoked (in
order) and the string returned. -/
structure Run where
  exit : Exit
  calls : List Call
  text : Bytes
  deriving DecidableEq

/-- The literal with which every error string of `translate` starts. -/
def errorSentinel : Bytes := ascii "ERROR: "

/-- The output-token filter ("Clean special tokens from output"). -/
def cleanTokens (output_tokens : List Bytes) : List Bytes :=
  output_tokens.filter fun token =>
    token != ascii "<s>" && token != ascii "<pad>" && token != ascii "</s>"

/-- `TranslationEngine::translate`, instrumented with the exit taken and the calls made. -/
def translateRun {T SP : Type} (x : Externals T SP) (e : TranslationEngine T SP)
    (input_text : Bytes) : Run :=
  match e.ready, e.translator, e.sp_source, e.sp_target with
  | true, some translator, some sp_source, some sp_target =>
    if input_text.isEmpty then ⟨.emptyInput, [], []⟩
    else
      match x.Encode sp_source input_text with
      | .error what => ⟨.exception, [.Encode], errorSentinel ++ what⟩
      | .ok encoded =>
        let tokens := encoded ++ [ascii "</s>"]
        match x.translate_batch translator [tokens] options with
        | .error what => ⟨.exception, [.Encode, .translate_batch], errorSentinel ++ what⟩
        | .ok [] => ⟨.emptyResult, [.Encode, .translate_batch], ascii "ERROR: Empty result"⟩
        | .ok (.error what :: _) =>
          ⟨.exception, [.Encode, .translate_batch], errorSentinel ++ what⟩
        | .ok (.ok output_tokens :: _) =>
          if output_tokens.isEmpty then
            ⟨.emptyResult, [.Encode, .translate_batch], ascii "ERROR: Empty result"⟩
          else
            let clean_tokens := cleanTokens output_tokens
            if clean_tokens.isEmpty then ⟨.noTokens, [.Encode, .translate_batch], []⟩
            else
              match x.Decode sp_target clean_tokens with
              | .error what =>
                ⟨.exception, [.Encode, .translate_batch, .Decode], errorSentinel ++ what⟩
              | .ok (ok, decoded_text) =>
                if !ok then
                  ⟨.decodeFailed, [.Encode, .translate_batch, .Decode],
                    ascii "ERROR: Decoding failed"⟩
                else
                  ⟨.translated, [.Encode, .translate_batch, .Decode], postProcess decoded_text⟩
  | _, _, _, _ => ⟨.notReady, [], ascii "ERROR: Engine not ready"⟩

/-- `TranslationEngine::translate`: the string returned. -/
def translate {T SP : Type} (x : Externals T SP) (e : TranslationEngine T SP)
    (input_text : Bytes) : Bytes :=
  (translateRun x e input_text).text

/-- The guard at the top of `translate` lets the call through. -/
def Ready {T SP : Type} (e : TranslationEngine T SP) : Prop :=
  e.ready = true ∧ e.translator.isSome = true ∧ e.sp_source.isSome = true ∧
    e.sp_target.isSome = true

/-! ### Auxiliary definitions used in the proofs -/

/-- The marker loop read off the remaining suffix of the text instead of an index; proved
equal to `replaceLoop` in `replaceLoop_eq_scan`. -/
def scan : Bytes → Bytes → Bool → Bytes
  | a :: b :: c :: rest, acc, last =>
    if a = 0xE2 ∧ b = 0x96 ∧ c = 0x81 then
      scan rest (if !last && !acc.isEmpty then acc ++ [32] else acc) true
    else scan (b :: c :: rest) (acc ++ [a]) false
  | [a, b], acc, _ => acc ++ [a, b]
  | [a], acc, _ => acc ++ [a]
  | [], acc, _ => acc

/-- Every byte is one of the trimmed characters. -/
def AllTrim (s : Bytes) : Prop := ∀ c ∈ s, c ∈ trimSet

/-- Neither the first nor the last byte is one of the trimmed characters. -/
def Tight (m : Bytes) : Prop :=
  ∀ c, (m.head? = some c ∨ m.getLast? = some c) → c ∉ trimSet

/-- A word of the decoded text: non-empty, no marker inside, no trimmed character inside. -/
def GoodWord (w : Bytes) : Prop := w ≠ [] ∧ ¬ marker <:+: w ∧ ∀ c ∈ w, c ∉ trimSet

/-- The decoded text in which every word is preceded by one marker. -/
def markedText (words : List Bytes) : Bytes := (words.map (marker ++ ·)).flatten

/-- An engine on which `translate` is never let through without all three handles. -/
def Sane {T SP : Type} (e : TranslationEngine T SP) : Prop := e.ready = true → Ready e

/-- Sample collaborators: exactly the files listed in `files` can be opened, the model and
the tokenizers always load, the source tokenizer makes one token of the text, the runtime
answers with the tokens `reply`, and the target tokenizer concatenates the tokens. -/
def demo (files : List String) (reply : List Bytes) : Externals Unit Unit :=
  { newTranslator := fun _ => .ok ()
    fileGood := fun p => files.contains p
    newProcessor := ()
    Load := fun _ _ => (.ok true, ())
    Encode := fun _ text => .ok [text]
    translate_batch := fun _ _ _ => .ok [.ok reply]
    Decode := fun _ tokens => .ok (true, tokens.flatten) }

/-- Sample collaborators whose inference model fails to load. -/
def demoNoModel (files : List String) : Externals Unit Unit :=
  { demo files [] with newTranslator := fun _ => .error (ascii "model.bin not found") }

/-- Sample collaborators whose source tokenizer throws. -/
def demoThrow : Externals Unit Unit :=
  { demo [] [] with Encode := fun _ _ => .error (ascii "boom") }

/-- Sample collaborators whose target tokenizer reports a status that is not ok. -/
def demoBadDecode (reply : List Bytes) : Externals Unit Unit :=
  { demo [] reply with Decode := fun _ _ => .ok (false, []) }

/-- The engine obtained from a fresh one by a successful `init`. -/
def demoEngine : TranslationEngine Unit Unit :=
  (init (demo ["good/vocab.spm"] []) {} "good").2

/-! ### The marker loop -/

theorem scan_nil (acc : Bytes) (last : Bool) : scan [] acc last = acc := by
  simp [scan]

theorem scan_marker (X acc : Bytes) (last : Bool) :
    scan (marker ++ X) acc last
      = scan X (if !last && !acc.isEmpty then acc ++ [32] else acc) true := by
  simp [marker, scan]

theorem scan_other (a : Nat) (l acc : Bytes) (last : Bool) (h : ¬ marker <+: a :: l) :
    scan (a :: l) acc last = scan l (acc ++ [a]) false := by
  rcases l with _ | ⟨b, _ | ⟨c, rest⟩⟩
  · simp [scan]
  · simp [scan]
  · have hne : ¬ (a = 0xE2 ∧ b = 0x96 ∧ c = 0x81) := by
      rintro ⟨rfl, rfl, rfl⟩
      exact h ⟨rest, rfl⟩
    rw [scan, if_neg hne]

theorem getD_drop_zero (d : Bytes) (i k : Nat) : (d.drop i).getD k 0 = d.getD (i + k) 0 := by
  simp [List.getD_eq_getElem?_getD, List.getElem?_drop]

theorem scan_step (l acc : Bytes) (last : Bool) :
    scan l acc last =
      if 0 < l.length then
        if 2 < l.length ∧ l.getD 0 0 = 0xE2 ∧ l.getD 1 0 = 0x96 ∧ l.getD 2 0 = 0x81 then
          scan (l.drop 3) (if !last && !acc.isEmpty then acc ++ [32] else acc) true
        else scan (l.drop 1) (acc ++ [l.getD 0 0]) false
      else acc := by
  rcases l with _ | ⟨a, _ | ⟨b, _ | ⟨c, rest⟩⟩⟩
  · simp [scan]
  · simp [scan]
  · simp [scan]
  · simp [scan]

theorem replaceLoop_eq_scan (d : Bytes) : ∀ (fuel i : Nat) (acc : Bytes) (last : Bool),
    d.length - i ≤ fuel → replaceLoop d fuel i acc last = scan (d.drop i) acc last := by
  intro fuel
  induction fuel with
  | zero =>
    intro i acc last h
    have : d.drop i = [] := List.drop_eq_nil_of_le (by omega)
    simp [replaceLoop, this, scan]
  | succ n ih =>
    intro i acc last h
    rw [scan_step, replaceLoop]
    simp only [getD_drop_zero, List.length_drop, List.drop_drop, Nat.add_zero]
    by_cases hi : i < d.length
    · have h0 : 0 < d.length - i := by omega
      rw [if_pos hi, if_pos h0]
      by_cases hm : i + 2 < d.length ∧ d.getD i 0 = 0xE2 ∧ d.getD (i + 1) 0 = 0x96 ∧
          d.getD (i + 2) 0 = 0x81
      · have hm2 : 2 < d.length - i ∧ d.getD i 0 = 0xE2 ∧ d.getD (i + 1) 0 = 0x96 ∧
            d.getD (i + 2) 0 = 0x81 := ⟨by omega, hm.2⟩
        rw [if_pos hm, if_pos hm2, ih _ _ _ (by omega)]
      · have hm2 : ¬ (2 < d.length - i ∧ d.getD i 0 = 0xE2 ∧ d.getD (i + 1) 0 = 0x96 ∧
            d.getD (i + 2) 0 = 0x81) := fun hh => hm ⟨by omega, hh.2⟩
        rw [if_neg hm, if_neg hm2, ih _ _ _ (by omega)]
    · have h0 : ¬ 0 < d.length - i := by omega
      rw [if_neg hi, if_neg h0]

theorem replaceMarkers_eq_scan (d : Bytes) : replaceMarkers d = scan d [] false := by
  unfold replaceMarkers
  rw [replaceLoop_eq_scan d d.length 0 [] false (by omega)]
  simp

/-- extra fuel never changes the result of the loop -/
theorem replaceLoop_fuel (d : Bytes) (k : Nat) :
    replaceLoop d (d.length + k) 0 [] false = replaceMarkers d := by
  rw [replaceMarkers_eq_scan, replaceLoop_eq_scan d _ 0 [] false (by omega)]
  simp

theorem infix_sep {s p q : Bytes} {x : Nat} (hx : x ∉ s) (h : s <:+: p ++ x :: q) :
    s <:+: p ∨ s <:+: q := by
  induction p with
  | nil =>
    rw [List.nil_append, List.infix_cons_iff] at h
    rcases h with h | h
    · rcases List.prefix_cons_iff.1 h with rfl | ⟨t, rfl, -⟩
      · exact Or.inl List.nil_infix
      · exact absurd (List.mem_cons_self _ _) hx
    · exact Or.inr h
  | cons a p ih =>
    rw [List.cons_append, List.infix_cons_iff] at h
    rcases h with h | h
    · have h2 : a :: p <+: a :: (p ++ x :: q) := ⟨x :: q, rfl⟩
      rcases List.prefix_or_prefix_of_prefix h h2 with h3 | ⟨t, rfl⟩
      · exact Or.inl h3.isInfix
      · rw [← List.cons_append, List.prefix_append_right_inj] at h
        rcases List.prefix_cons_iff.1 h with rfl | ⟨t, rfl, -⟩
        · exact Or.inl ⟨[], [], by simp⟩
        · exact absurd (by simp) hx
    · rcases ih h with h | h
      · exact Or.inl (h.trans (List.suffix_cons a p).isInfix)
      · exact Or.inr h

theorem not_marker_infix_short (l : Bytes) (h : l.length ≤ 2) : ¬ marker <:+: l := by
  intro hm
  have := hm.length_le
  simp [marker] at this
  omega

theorem space_not_mem_marker : (32 : Nat) ∉ marker := by decide

/-- Invariant of the scan: no marker is ever completed in the accumulated output. -/
theorem scan_no_marker : ∀ (n : Nat) (l acc : Bytes) (last : Bool), l.length ≤ n →
    ¬ marker <:+: acc ++ l.take 2 →
    (last = true → acc = [] ∨ ∃ a0, acc = a0 ++ [32]) →
    ¬ marker <:+: scan l acc last := by
  intro n
  induction n with
  | zero =>
    intro l acc last hl hk _
    have : l = [] := List.length_eq_zero.1 (by omega)
    subst this
    simpa [scan] using hk
  | succ n ih =>
    intro l acc last hl hk hlast
    rcases l with _ | ⟨a, _ | ⟨b, _ | ⟨c, rest⟩⟩⟩
    · simpa [scan] using hk
    · simpa [scan] using hk
    · simpa [scan] using hk
    · have hacc : ¬ marker <:+: acc := fun h => hk (h.trans ⟨[], [a, b], by simp⟩)
      by_cases hm : a = 0xE2 ∧ b = 0x96 ∧ c = 0x81
      · rw [scan, if_pos hm]
        have hrest : rest.length ≤ n := by simp at hl; omega
        refine ih rest _ true hrest ?_ ?_
        · by_cases hc : (!last && !acc.isEmpty) = true
          · rw [if_pos hc, List.append_assoc]
            intro h
            rcases infix_sep space_not_mem_marker h with h | h
            · exact hacc h
            · exact not_marker_infix_short _ (by simp [List.length_take]) h
          · rw [if_neg hc]
            have hc2 : last = true ∨ acc = [] := by
              cases last <;> cases acc <;> simp at hc ⊢
            have hc3 : acc = [] ∨ ∃ a0, acc = a0 ++ [32] := by
              rcases hc2 with h | h
              · exact hlast h
              · exact Or.inl h
            rcases hc3 with rfl | ⟨a0, rfl⟩
            · simpa using not_marker_infix_short (rest.take 2) (by simp [List.length_take])
            · rw [List.append_assoc]
              intro h
              rcases infix_sep space_not_mem_marker h with h | h
              · exact hacc (h.trans ⟨[], [32], by simp⟩)
              · exact not_marker_infix_short _ (by simp [List.length_take]) h
        · intro _
          by_cases hc : (!last && !acc.isEmpty) = true
          · rw [if_pos hc]; exact Or.inr ⟨acc, rfl⟩
          · rw [if_neg hc]
            have hc2 : last = true ∨ acc = [] := by
              cases last <;> cases acc <;> simp at hc ⊢
            rcases hc2 with h | h
            · exact hlast h
            · exact Or.inl h
      · rw [scan, if_neg hm]
        refine ih (b :: c :: rest) _ false (by simp at hl ⊢; omega) ?_ (by simp)
        intro h
        have e : acc ++ [a] ++ List.take 2 (b :: c :: rest) = (acc ++ [a, b]) ++ [c] := by simp
        rw [e, List.infix_concat_iff] at h
        rcases h with h | h
        · have h2 : [a, b, c] <:+ acc ++ [a, b] ++ [c] := ⟨acc, by simp⟩
          have h3 : marker = [a, b, c] := by
            have h4 := List.suffix_of_suffix_length_le h h2 (by simp [marker])
            exact h4.eq_of_length (by simp [marker])
          simp [marker] at h3
          exact hm ⟨h3.1.symm, h3.2.1.symm, h3.2.2.symm⟩
        · exact hk (by simpa using h)

theorem replaceMarkers_no_marker (d : Bytes) : ¬ marker <:+: replaceMarkers d := by
  rw [replaceMarkers_eq_scan]
  exact scan_no_marker d.length d [] false (Nat.le_refl _)
    (by simpa using not_marker_infix_short (d.take 2) (by simp [List.length_take]))
    (by simp)

theorem ff_allTrim_append (pre t : Bytes) (h : AllTrim pre) :
    find_first_not_of (pre ++ t) trimSet
      = (find_first_not_of t trimSet).map (· + pre.length) := by
  induction pre with
  | nil => simp
  | cons a pre ih =>
    have ha : a ∈ trimSet := h a (List.mem_cons_self _ _)
    have hp : AllTrim pre := fun c hc => h c (List.mem_cons_of_mem _ hc)
    rw [List.cons_append, find_first_not_of, if_pos ha, ih hp, Option.map_map]
    congr 1

theorem fl_allTrim (post : Bytes) (h : AllTrim post) : find_last_not_of post trimSet = none := by
  induction post with
  | nil => rfl
  | cons a post ih =>
    have ha : a ∈ trimSet := h a (List.mem_cons_self _ _)
    have hp : AllTrim post := fun c hc => h c (List.mem_cons_of_mem _ hc)
    rw [find_last_not_of, ih hp]
    simp [ha]

theorem fl_append_some (pre t : Bytes) (k : Nat) (h : find_last_not_of t trimSet = some k) :
    find_last_not_of (pre ++ t) trimSet = some (pre.length + k) := by
  induction pre with
  | nil => simpa using h
  | cons a pre ih =>
    rw [List.cons_append, find_last_not_of, ih]
    simp only [List.length_cons, Option.some.injEq]
    omega

theorem fl_append_allTrim (t post : Bytes) (h : AllTrim post) :
    find_last_not_of (t ++ post) trimSet = find_last_not_of t trimSet := by
  induction t with
  | nil => simp [fl_allTrim post h, find_last_not_of]
  | cons a t ih => rw [List.cons_append, find_last_not_of, ih, find_last_not_of]

theorem fl_concat (t : Bytes) (c : Nat) (hc : c ∉ trimSet) :
    find_last_not_of (t ++ [c]) trimSet = some t.length := by
  have h1 : find_last_not_of [c] trimSet = some 0 := by
    simp [find_last_not_of, hc]
  simpa using fl_append_some t [c] 0 h1

/-- The trim step returns exactly the middle part of a text that is split into
leading trim characters, a core with no trim character at either end, and trailing ones. -/
theorem trimWhitespace_decomp (pre mid post : Bytes) (hpre : AllTrim pre) (hpost : AllTrim post)
    (hmid : Tight mid) : trimWhitespace (pre ++ mid ++ post) = mid := by
  induction mid using List.reverseRecOn with
  | nil =>
    have hall : AllTrim (pre ++ [] ++ post) := by
      intro c hc
      simp at hc
      rcases hc with hc | hc
      · exact hpre c hc
      · exact hpost c hc
    simp only [trimWhitespace, fl_allTrim _ hall]
    split <;> simp_all
  | append_singleton mi ml _ =>
    have hl : ml ∉ trimSet := hmid ml (Or.inr (by simp))
    have hlast : find_last_not_of (pre ++ (mi ++ [ml]) ++ post) trimSet
        = some (pre.length + mi.length) := by
      rw [fl_append_allTrim _ _ hpost]
      exact fl_append_some pre _ _ (fl_concat mi ml hl)
    have hfirst : find_first_not_of (pre ++ (mi ++ [ml]) ++ post) trimSet
        = some pre.length := by
      rw [List.append_assoc, ff_allTrim_append _ _ hpre]
      rcases mi with _ | ⟨m0, mi⟩
      · simp [find_first_not_of, hl]
      · have h0 : m0 ∉ trimSet := hmid m0 (Or.inl (by simp))
        simp [find_first_not_of, h0]
    simp only [trimWhitespace, hfirst, hlast, substr]
    rw [List.append_assoc, List.drop_left]
    have e : pre.length + mi.length - pre.length + 1 = (mi ++ [ml]).length := by simp
    rw [e, List.take_left]

theorem exists_right_split (t : Bytes) :
    ∃ m post, t = m ++ post ∧ AllTrim post ∧ ∀ c, m.getLast? = some c → c ∉ trimSet := by
  induction t using List.reverseRecOn with
  | nil => exact ⟨[], [], rfl, by simp [AllTrim], by simp⟩
  | append_singleton t x ih =>
    by_cases hx : x ∈ trimSet
    · obtain ⟨m, post, rfl, hp, hm⟩ := ih
      refine ⟨m, post ++ [x], by simp, ?_, hm⟩
      intro c hc
      simp at hc
      rcases hc with hc | rfl
      · exact hp c hc
      · exact hx
    · refine ⟨t ++ [x], [], by simp, by simp [AllTrim], ?_⟩
      intro c hc
      simp at hc
      subst hc
      exact hx

theorem exists_left_split (s : Bytes) :
    ∃ pre t, s = pre ++ t ∧ AllTrim pre ∧ ∀ c, t.head? = some c → c ∉ trimSet := by
  induction s with
  | nil => exact ⟨[], [], rfl, by simp [AllTrim], by simp⟩
  | cons x s ih =>
    by_cases hx : x ∈ trimSet
    · obtain ⟨pre, t, rfl, hp, ht⟩ := ih
      refine ⟨x :: pre, t, by simp, ?_, ht⟩
      intro c hc
      simp at hc
      rcases hc with rfl | hc
      · exact hx
      · exact hp c hc
    · refine ⟨[], x :: s, by simp, by simp [AllTrim], ?_⟩
      intro c hc
      simp at hc
      subst hc
      exact hx

theorem exists_trim_split (s : Bytes) :
    ∃ pre mid post, s = pre ++ mid ++ post ∧ AllTrim pre ∧ AllTrim post ∧ Tight mid := by
  obtain ⟨pre, t, rfl, hpre, ht⟩ := exists_left_split s
  obtain ⟨m, post, rfl, hpost, hm⟩ := exists_right_split t
  refine ⟨pre, m, post, by simp, hpre, hpost, ?_⟩
  rintro c (hc | hc)
  · apply ht c
    cases m with
    | nil => simp at hc
    | cons a m => simpa using hc
  · exact hm c hc

theorem trimWhitespace_tight (m : Bytes) (h : Tight m) : trimWhitespace m = m := by
  simpa using trimWhitespace_decomp [] m [] (by simp [AllTrim]) (by simp [AllTrim]) h

theorem trimWhitespace_idem (s : Bytes) :
    trimWhitespace (trimWhitespace s) = trimWhitespace s := by
  obtain ⟨pre, mid, post, rfl, hpre, hpost, hmid⟩ := exists_trim_split s
  rw [trimWhitespace_decomp pre mid post hpre hpost hmid, trimWhitespace_tight mid hmid]

theorem trimWhitespace_part_of (s : Bytes) : trimWhitespace s <:+: s := by
  obtain ⟨pre, mid, post, rfl, hpre, hpost, hmid⟩ := exists_trim_split s
  rw [trimWhitespace_decomp pre mid post hpre hpost hmid]
  exact ⟨pre, post, rfl⟩

theorem trimWhitespace_is_tight (s : Bytes) : Tight (trimWhitespace s) := by
  obtain ⟨pre, mid, post, rfl, hpre, hpost, hmid⟩ := exists_trim_split s
  rw [trimWhitespace_decomp pre mid post hpre hpost hmid]
  exact hmid

theorem scan_of_no_marker : ∀ (l acc : Bytes) (last : Bool), ¬ marker <:+: l →
    scan l acc last = acc ++ l := by
  intro l
  induction l with
  | nil => intro acc last _; simp [scan]
  | cons a l ih =>
    intro acc last h
    have h1 : ¬ marker <+: a :: l := fun hp => h hp.isInfix
    have h2 : ¬ marker <:+: l := fun hi => h (hi.trans (List.suffix_cons a l).isInfix)
    rw [scan_other a l acc last h1, ih _ _ h2]
    simp

theorem replaceMarkers_of_no_marker (t : Bytes) (h : ¬ marker <:+: t) : replaceMarkers t = t := by
  rw [replaceMarkers_eq_scan, scan_of_no_marker t [] false h]
  simp

theorem postProcess_no_marker (d : Bytes) : ¬ marker <:+: postProcess d := fun h =>
  replaceMarkers_no_marker d (h.trans (trimWhitespace_part_of _))

theorem postProcess_idem (s : Bytes) : postProcess (postProcess s) = postProcess s := by
  have h1 : replaceMarkers (postProcess s) = postProcess s :=
    replaceMarkers_of_no_marker _ (postProcess_no_marker s)
  show trimWhitespace (replaceMarkers (postProcess s)) = postProcess s
  rw [h1]
  exact trimWhitespace_idem _

theorem scan_word : ∀ (w R acc : Bytes) (last : Bool), w ≠ [] → ¬ marker <:+: w →
    (R = [] ∨ ∃ R0, R = marker ++ R0) →
    scan (w ++ R) acc last = scan R (acc ++ w) false := by
  intro w
  induction w with
  | nil => intro R acc last h; exact absurd rfl h
  | cons a w ih =>
    intro R acc last _ hw hR
    have hpre : ¬ marker <+: a :: (w ++ R) := by
      intro hp
      rcases w with _ | ⟨b, _ | ⟨c, w⟩⟩
      · rcases hR with rfl | ⟨R0, rfl⟩
        · simp [marker] at hp
        · simp [marker] at hp
      · rcases hR with rfl | ⟨R0, rfl⟩
        · simp [marker] at hp
        · simp [marker] at hp
      · simp [marker] at hp
        obtain ⟨rfl, rfl, rfl⟩ := hp
        exact hw ⟨[], w, rfl⟩
    rw [List.cons_append, scan_other a _ acc last hpre]
    by_cases hne : w = []
    · subst hne; simp
    · have hw2 : ¬ marker <:+: w := fun hi => hw (hi.trans (List.suffix_cons a w).isInfix)
      rw [ih R (acc ++ [a]) false hne hw2 hR]
      simp

theorem markedText_shape (ws : List Bytes) :
    markedText ws = [] ∨ ∃ R0, markedText ws = marker ++ R0 := by
  cases ws with
  | nil => exact Or.inl rfl
  | cons w ws => exact Or.inr ⟨w ++ markedText ws, by simp [markedText]⟩

theorem scan_markedText : ∀ (ws : List Bytes) (acc : Bytes), acc ≠ [] →
    (∀ w ∈ ws, GoodWord w) →
    scan (markedText ws) acc false = acc ++ (ws.map ([32] ++ ·)).flatten := by
  intro ws
  induction ws with
  | nil => intro acc _ _; simp [markedText, scan]
  | cons w ws ih =>
    intro acc hacc hg
    have hw : GoodWord w := hg w (List.mem_cons_self _ _)
    have hws : ∀ v ∈ ws, GoodWord v := fun v hv => hg v (List.mem_cons_of_mem _ hv)
    have e : markedText (w :: ws) = marker ++ (w ++ markedText ws) := by simp [markedText]
    rw [e, scan_marker, scan_word w _ _ _ hw.1 hw.2.1 (markedText_shape ws)]
    have hc : (!false && !acc.isEmpty) = true := by
      cases acc with
      | nil => exact absurd rfl hacc
      | cons x xs => rfl
    rw [if_pos hc, ih _ (by simp) hws]
    simp

theorem intercalate_cons_eq (sep w : Bytes) (ws : List Bytes) :
    List.intercalate sep (w :: ws) = w ++ (ws.map (sep ++ ·)).flatten := by
  induction ws generalizing w with
  | nil => simp [List.intercalate]
  | cons v ws ih =>
    have := ih v
    simp only [List.intercalate] at this ⊢
    simp [List.intersperse, this]

theorem replaceMarkers_markedText (w : Bytes) (ws : List Bytes) (hg : ∀ v ∈ w :: ws, GoodWord v) :
    replaceMarkers (markedText (w :: ws)) = List.intercalate [32] (w :: ws) := by
  have hw : GoodWord w := hg w (List.mem_cons_self _ _)
  have hws : ∀ v ∈ ws, GoodWord v := fun v hv => hg v (List.mem_cons_of_mem _ hv)
  have e : markedText (w :: ws) = marker ++ (w ++ markedText ws) := by simp [markedText]
  rw [replaceMarkers_eq_scan, e, scan_marker,
    scan_word w _ _ _ hw.1 hw.2.1 (markedText_shape ws)]
  have hc : ¬ ((!false && !([] : Bytes).isEmpty) = true) := by simp
  rw [if_neg hc, scan_markedText ws _ (by simpa using hw.1) hws, intercalate_cons_eq]
  simp

theorem tight_joined : ∀ (ws : List Bytes) (w : Bytes), (∀ v ∈ w :: ws, GoodWord v) →
    ∀ c, (w ++ (ws.map (([32] : Bytes) ++ ·)).flatten).getLast? = some c → c ∉ trimSet := by
  intro ws
  induction ws with
  | nil =>
    intro w hg c hc
    have hw : GoodWord w := hg w (List.mem_cons_self _ _)
    simp at hc
    exact hw.2.2 c (List.mem_of_getLast?_eq_some hc)
  | cons v ws ih =>
    intro w hg c hc
    have hv : ∀ u ∈ v :: ws, GoodWord u := fun u hu => hg u (List.mem_cons_of_mem _ hu)
    have hvne : v ≠ [] := (hv v (List.mem_cons_self _ _)).1
    apply ih v hv c
    have e : w ++ (List.map (fun x => ([32] : Bytes) ++ x) (v :: ws)).flatten
        = (w ++ [32]) ++ (v ++ (List.map (fun x => ([32] : Bytes) ++ x) ws).flatten) := by simp
    rw [e, List.getLast?_append_of_ne_nil _ (by simpa using fun h => absurd h hvne)] at hc
    exact hc

/-- Lists of good words post-process to the words joined by single spaces. -/
theorem postProcess_markedText (w : Bytes) (ws : List Bytes) (hg : ∀ v ∈ w :: ws, GoodWord v) :
    postProcess (markedText (w :: ws)) = List.intercalate [32] (w :: ws) := by
  have hw : GoodWord w := hg w (List.mem_cons_self _ _)
  show trimWhitespace (replaceMarkers (markedText (w :: ws))) = _
  rw [replaceMarkers_markedText w ws hg]
  apply trimWhitespace_tight
  rw [intercalate_cons_eq]
  rintro c (hc | hc)
  · obtain ⟨a, w0, rfl⟩ := List.exists_cons_of_ne_nil hw.1
    simp at hc
    subst hc
    exact hw.2.2 _ (List.mem_cons_self _ _)
  · exact tight_joined ws w hg c hc

/-! ### The engine -/

theorem translateRun_cases {T SP : Type} (x : Externals T SP) (e : TranslationEngine T SP)
    (input_text : Bytes) (r : Run) (hr : translateRun x e input_text = r) :
    (r.exit.failed = true ∧ errorSentinel <+: r.text) ∨
    (r.exit = .emptyInput ∧ input_text = [] ∧ r.text = []) ∨
    (r.exit = .noTokens ∧ r.text = []) ∨
    (r.exit = .translated ∧
      ∃ translator sp_source sp_target encoded rest output_tokens decoded_text,
        e.translator = some translator ∧ e.sp_source = some sp_source ∧
        e.sp_target = some sp_target ∧
        x.Encode sp_source input_text = .ok encoded ∧
        x.translate_batch translator [encoded ++ [ascii "</s>"]] options
          = .ok (.ok output_tokens :: rest) ∧
        x.Decode sp_target (cleanTokens output_tokens) = .ok (true, decoded_text) ∧
        r.text = postProcess decoded_text) := by
  have hs : ∀ what : Bytes, errorSentinel <+: errorSentinel ++ what := fun what => ⟨what, rfl⟩
  have h1 : errorSentinel <+: ascii "ERROR: Empty result" := by decide
  have h2 : errorSentinel <+: ascii "ERROR: Decoding failed" := by decide
  have h3 : errorSentinel <+: ascii "ERROR: Engine not ready" := by decide
  unfold translateRun at hr
  split at hr
  · rename_i translator sp_source sp_target hrd ht hs1 hs2
    split at hr
    · rename_i hin
      subst hr
      refine Or.inr (Or.inl ⟨rfl, ?_, rfl⟩)
      simpa using hin
    · split at hr
      · subst hr; exact Or.inl ⟨rfl, hs _⟩
      · rename_i encoded henc
        dsimp only at hr
        split at hr
        · subst hr; exact Or.inl ⟨rfl, hs _⟩
        · subst hr; exact Or.inl ⟨rfl, h1⟩
        · subst hr; exact Or.inl ⟨rfl, hs _⟩
        · rename_i output_tokens rest hbatch
          split at hr
          · subst hr; exact Or.inl ⟨rfl, h1⟩
          · split at hr
            · subst hr; exact Or.inr (Or.inr (Or.inl ⟨rfl, rfl⟩))
            · split at hr
              · subst hr; exact Or.inl ⟨rfl, hs _⟩
              · rename_i ok decoded_text hdec
                split at hr
                · subst hr; exact Or.inl ⟨rfl, h2⟩
                · rename_i hok
                  have hok2 : ok = true := by simpa using hok
                  subst hok2
                  subst hr
                  exact Or.inr (Or.inr (Or.inr ⟨rfl, translator, sp_source, sp_target, encoded,
                    rest, output_tokens, decoded_text, ht, hs1, hs2, henc, hbatch, hdec, rfl⟩))
  · subst hr; exact Or.inl ⟨rfl, h3⟩

theorem translateRun_not_ready {T SP : Type} (x : Externals T SP) (e : TranslationEngine T SP)
    (input_text : Bytes) (h : e.ready = false) :
    translateRun x e input_text = ⟨.notReady, [], ascii "ERROR: Engine not ready"⟩ := by
  unfold translateRun
  split
  · rename_i hr _ _ _
    rw [h] at hr
    exact absurd hr (by simp)
  · rfl

theorem translateRun_empty {T SP : Type} (x : Externals T SP) (e : TranslationEngine T SP)
    (h : Ready e) : translateRun x e [] = ⟨.emptyInput, [], []⟩ := by
  obtain ⟨h1, h2, h3, h4⟩ := h
  obtain ⟨t, ht⟩ := Option.isSome_iff_exists.1 h2
  obtain ⟨s, hs⟩ := Option.isSome_iff_exists.1 h3
  obtain ⟨g, hg⟩ := Option.isSome_iff_exists.1 h4
  simp [translateRun, h1, ht, hs, hg]

theorem loadTokenizers_empty {T SP : Type} (x : Externals T SP) (e : TranslationEngine T SP)
    (t : String) : loadTokenizers x e "" t = (false, e) := by
  have h : ("".isEmpty || t.isEmpty) = true := by
    have : "".isEmpty = true := by decide
    rw [this]; rfl
  unfold loadTokenizers
  rw [if_pos h]

theorem loadTokenizers_flag {T SP : Type} (x : Externals T SP) (e : TranslationEngine T SP)
    (s t : String) : (loadTokenizers x e s t).2.has_separate_vocabs = e.has_separate_vocabs := by
  unfold loadTokenizers
  repeat' split
  all_goals rfl

theorem loadTokenizers_ready {T SP : Type} (x : Externals T SP) (e : TranslationEngine T SP)
    (s t : String) :
    (loadTokenizers x e s t).2.ready = (e.ready || (loadTokenizers x e s t).1) := by
  unfold loadTokenizers
  repeat' split
  all_goals simp

theorem loadTokenizers_sane {T SP : Type} (x : Externals T SP) (e : TranslationEngine T SP)
    (s t : String) (h : e.ready = true → Ready e) (ht : e.translator.isSome = true) :
    Sane (loadTokenizers x e s t).2 := by
  unfold loadTokenizers
  repeat' split
  all_goals
    intro hr
    first
      | exact ⟨rfl, ht, rfl, rfl⟩
      | (have h0 := h hr
         exact ⟨h0.1, h0.2.1, by first | rfl | exact h0.2.2.1, by first | rfl | exact h0.2.2.2⟩)

theorem init_ready {T SP : Type} (x : Externals T SP) (e : TranslationEngine T SP)
    (model_dir : String) :
    (init x e model_dir).2.ready = (e.ready || (init x e model_dir).1) := by
  unfold init
  split
  · simp
  · simp only [loadTokenizers_ready]

theorem init_sane {T SP : Type} (x : Externals T SP) (e : TranslationEngine T SP)
    (model_dir : String) (h : Sane e) : Sane (init x e model_dir).2 := by
  unfold init
  split
  · exact h
  · apply loadTokenizers_sane
    · intro hr
      have h0 := h hr
      exact ⟨h0.1, rfl, rfl, rfl⟩
    · rfl

theorem initSeq_ready {T SP : Type} (x : Externals T SP) :
    ∀ (dirs : List String) (e : TranslationEngine T SP),
      (initSeq x e dirs).2.ready = (e.ready || (initSeq x e dirs).1.any id) := by
  intro dirs
  induction dirs with
  | nil => intro e; simp [initSeq]
  | cons d ds ih =>
    intro e
    simp only [initSeq, ih, init_ready, List.any_cons, id, Bool.or_assoc]

theorem initSeq_sane {T SP : Type} (x : Externals T SP) :
    ∀ (dirs : List String) (e : TranslationEngine T SP), Sane e → Sane (initSeq x e dirs).2 := by
  intro dirs
  induction dirs with
  | nil => intro e h; exact h
  | cons d ds ih => intro e h; exact ih _ (init_sane x e d h)

theorem fresh_sane {T SP : Type} : Sane ({} : TranslationEngine T SP) := by
  intro h
  exact absurd h (by simp)

theorem resolveVocab_separate (fileGood : String → Bool) (model_dir : String) (b : Bool)
    (hsrc : fileGood (model_dir ++ "/source.spm") = true)
    (htgt : fileGood (model_dir ++ "/target.spm") = true) :
    resolveVocab fileGood model_dir b
      = ⟨model_dir ++ "/source.spm", model_dir ++ "/target.spm", true⟩ := by
  simp [resolveVocab, hsrc, htgt]

theorem resolveVocab_shared (fileGood : String → Bool) (model_dir : String) (b : Bool)
    (c : String)
    (hnot : ¬ (fileGood (model_dir ++ "/source.spm") = true ∧
      fileGood (model_dir ++ "/target.spm") = true))
    (hc : (shared_candidates model_dir).find? fileGood = some c) :
    resolveVocab fileGood model_dir b = ⟨c, c, false⟩ := by
  have h : (fileGood (model_dir ++ "/source.spm") && fileGood (model_dir ++ "/target.spm"))
      = false := by
    cases h1 : fileGood (model_dir ++ "/source.spm") <;>
      cases h2 : fileGood (model_dir ++ "/target.spm") <;> simp_all
  simp only [resolveVocab, h, hc]
  simp

theorem resolveVocab_none (fileGood : String → Bool) (model_dir : String) (b : Bool)
    (h : ∀ c ∈ shared_candidates model_dir, fileGood c = false) :
    resolveVocab fileGood model_dir b = ⟨"", "", b⟩ := by
  have hs : fileGood (model_dir ++ "/source.spm") = false := h _ (by simp [shared_candidates])
  have hf : (shared_candidates model_dir).find? fileGood = none := by
    rw [List.find?_eq_none]
    intro c hc
    simp [h c hc]
  simp only [resolveVocab, hs, hf]
  simp

theorem translate_not_Ready {T SP : Type} (x : Externals T SP) (e : TranslationEngine T SP)
    (input_text : Bytes) (h : ¬ Ready e) :
    translate x e input_text = ascii "ERROR: Engine not ready" := by
  unfold translate translateRun
  split
  · rename_i hr ht hsrc htgt
    exact absurd ⟨hr, by simp [ht], by simp [hsrc], by simp [htgt]⟩ h
  · rfl

theorem translate_Encode_error {T SP : Type} (x : Externals T SP)
    (e : TranslationEngine T SP) (input_text : Bytes) {translator : T}
    {sp_source sp_target : SP} {what : Bytes} (hr : e.ready = true)
    (ht : e.translator = some translator) (hsrc : e.sp_source = some sp_source)
    (htgt : e.sp_target = some sp_target) (hne : input_text ≠ [])
    (henc : x.Encode sp_source input_text = .error what) :
    translate x e input_text = errorSentinel ++ what := by
  simp [translate, translateRun, hr, ht, hsrc, htgt, hne, henc]

theorem translate_batch_error {T SP : Type} (x : Externals T SP)
    (e : TranslationEngine T SP) (input_text : Bytes) {translator : T}
    {sp_source sp_target : SP} {encoded : List Bytes} {what : Bytes} (hr : e.ready = true)
    (ht : e.translator = some translator) (hsrc : e.sp_source = some sp_source)
    (htgt : e.sp_target = some sp_target) (hne : input_text ≠ [])
    (henc : x.Encode sp_source input_text = .ok encoded)
    (hb : x.translate_batch translator [encoded ++ [ascii "</s>"]] options = .error what) :
    translate x e input_text = errorSentinel ++ what := by
  simp [translate, translateRun, hr, ht, hsrc, htgt, hne, henc, hb]

theorem translate_batch_nil {T SP : Type} (x : Externals T SP)
    (e : TranslationEngine T SP) (input_text : Bytes) {translator : T}
    {sp_source sp_target : SP} {encoded : List Bytes} (hr : e.ready = true)
    (ht : e.translator = some translator) (hsrc : e.sp_source = some sp_source)
    (htgt : e.sp_target = some sp_target) (hne : input_text ≠ [])
    (henc : x.Encode sp_source input_text = .ok encoded)
    (hb : x.translate_batch translator [encoded ++ [ascii "</s>"]] options = .ok []) :
    translate x e input_text = ascii "ERROR: Empty result" := by
  simp [translate, translateRun, hr, ht, hsrc, htgt, hne, henc, hb]

theorem translate_output_error {T SP : Type} (x : Externals T SP)
    (e : TranslationEngine T SP) (input_text : Bytes) {translator : T}
    {sp_source sp_target : SP} {encoded : List Bytes} {what : Bytes}
    {rest : List (Except Bytes (List Bytes))} (hr : e.ready = true)
    (ht : e.translator = some translator) (hsrc : e.sp_source = some sp_source)
    (htgt : e.sp_target = some sp_target) (hne : input_text ≠ [])
    (henc : x.Encode sp_source input_text = .ok encoded)
    (hb : x.translate_batch translator [encoded ++ [ascii "</s>"]] options
      = .ok (.error what :: rest)) :
    translate x e input_text = errorSentinel ++ what := by
  simp [translate, translateRun, hr, ht, hsrc, htgt, hne, henc, hb]

theorem translate_output_nil {T SP : Type} (x : Externals T SP)
    (e : TranslationEngine T SP) (input_text : Bytes) {translator : T}
    {sp_source sp_target : SP} {encoded : List Bytes}
    {rest : List (Except Bytes (List Bytes))} (hr : e.ready = true)
    (ht : e.translator = some translator) (hsrc : e.sp_source = some sp_source)
    (htgt : e.sp_target = some sp_target) (hne : input_text ≠ [])
    (henc : x.Encode sp_source input_text = .ok encoded)
    (hb : x.translate_batch translator [encoded ++ [ascii "</s>"]] options
      = .ok (.ok [] :: rest)) :
    translate x e input_text = ascii "ERROR: Empty result" := by
  simp [translate, translateRun, hr, ht, hsrc, htgt, hne, henc, hb]

theorem translate_clean_nil {T SP : Type} (x : Externals T SP)
    (e : TranslationEngine T SP) (input_text : Bytes) {translator : T}
    {sp_source sp_target : SP} {encoded output_tokens : List Bytes}
    {rest : List (Except Bytes (List Bytes))} (hr : e.ready = true)
    (ht : e.translator = some translator) (hsrc : e.sp_source = some sp_source)
    (htgt : e.sp_target = some sp_target) (hne : input_text ≠ [])
    (henc : x.Encode sp_source input_text = .ok encoded)
    (hb : x.translate_batch translator [encoded ++ [ascii "</s>"]] options
      = .ok (.ok output_tokens :: rest))
    (hout : output_tokens ≠ []) (hclean : cleanTokens output_tokens = []) :
    translate x e input_text = [] := by
  simp [translate, translateRun, hr, ht, hsrc, htgt, hne, henc, hb, hout, hclean]

/-- Once the filtered tokens are not empty, the string returned is decided by what the target
tokenizer does with them. -/
theorem translate_Decode_result {T SP : Type} (x : Externals T SP)
    (e : TranslationEngine T SP) (input_text : Bytes) {translator : T}
    {sp_source sp_target : SP} {encoded output_tokens : List Bytes}
    {rest : List (Except Bytes (List Bytes))} (hr : e.ready = true)
    (ht : e.translator = some translator) (hsrc : e.sp_source = some sp_source)
    (htgt : e.sp_target = some sp_target) (hne : input_text ≠ [])
    (henc : x.Encode sp_source input_text = .ok encoded)
    (hb : x.translate_batch translator [encoded ++ [ascii "</s>"]] options
      = .ok (.ok output_tokens :: rest))
    (hout : output_tokens ≠ []) (hclean : cleanTokens output_tokens ≠ []) :
    translate x e input_text =
      match x.Decode sp_target (cleanTokens output_tokens) with
      | .error what => errorSentinel ++ what
      | .ok (false, _) => ascii "ERROR: Decoding failed"
      | .ok (true, decoded_text) => postProcess decoded_text := by
  simp only [translate, translateRun, hr, ht, hsrc, htgt, henc, hb]
  simp only [List.isEmpty_iff, hne, hout, hclean, if_false]
  rcases x.Decode sp_target (cleanTokens output_tokens) with what | ⟨ok, d⟩
  · rfl
  · cases ok <;> rfl


/-- A result that does not start with the sentinel comes from the empty input, from an
output with only reserved tokens, or from a successful decode. -/
theorem translate_without_sentinel {T SP : Type} (x : Externals T SP)
    (e : TranslationEngine T SP) (input_text : Bytes)
    (hno : ¬ errorSentinel <+: translate x e input_text) :
    Ready e ∧
    ((input_text = [] ∧ translate x e input_text = []) ∨
      ∃ translator sp_source sp_target encoded rest output_tokens,
        e.translator = some translator ∧ e.sp_source = some sp_source ∧
        e.sp_target = some sp_target ∧
        x.Encode sp_source input_text = .ok encoded ∧
        x.translate_batch translator [encoded ++ [ascii "</s>"]] options
          = .ok (.ok output_tokens :: rest) ∧
        output_tokens ≠ [] ∧
        ((cleanTokens output_tokens = [] ∧ translate x e input_text = []) ∨
          ∃ decoded_text,
            x.Decode sp_target (cleanTokens output_tokens) = .ok (true, decoded_text) ∧
            translate x e input_text = postProcess decoded_text)) := by
  have hs : ∀ what : Bytes, errorSentinel <+: errorSentinel ++ what := fun what => ⟨what, rfl⟩
  have h1 : errorSentinel <+: ascii "ERROR: Empty result" := by decide
  have h2 : errorSentinel <+: ascii "ERROR: Decoding failed" := by decide
  have h3 : errorSentinel <+: ascii "ERROR: Engine not ready" := by decide
  by_cases hready : Ready e
  swap
  · rw [translate_not_Ready x e input_text hready] at hno
    exact absurd h3 hno
  refine ⟨hready, ?_⟩
  obtain ⟨hr, ht0, hs0, hg0⟩ := hready
  obtain ⟨t, ht⟩ := Option.isSome_iff_exists.1 ht0
  obtain ⟨s, hsrc⟩ := Option.isSome_iff_exists.1 hs0
  obtain ⟨g, htgt⟩ := Option.isSome_iff_exists.1 hg0
  by_cases hne : input_text = []
  · subst hne
    refine Or.inl ⟨rfl, ?_⟩
    unfold translate
    rw [translateRun_empty x e ⟨hr, ht0, hs0, hg0⟩]
  refine Or.inr ?_
  cases henc : x.Encode s input_text with
  | error what =>
    rw [translate_Encode_error x e input_text hr ht hsrc htgt hne henc] at hno
    exact absurd (hs what) hno
  | ok encoded =>
    cases hb : x.translate_batch t [encoded ++ [ascii "</s>"]] options with
    | error what =>
      rw [translate_batch_error x e input_text hr ht hsrc htgt hne henc hb] at hno
      exact absurd (hs what) hno
    | ok results =>
      rcases results with _ | ⟨⟨what⟩ | ⟨output_tokens⟩, rest⟩
      · rw [translate_batch_nil x e input_text hr ht hsrc htgt hne henc hb] at hno
        exact absurd h1 hno
      · rw [translate_output_error x e input_text hr ht hsrc htgt hne henc hb] at hno
        exact absurd (hs what) hno
      · by_cases hout : output_tokens = []
        · subst hout
          rw [translate_output_nil x e input_text hr ht hsrc htgt hne henc hb] at hno
          exact absurd h1 hno
        · refine ⟨t, s, g, encoded, rest, output_tokens, ht, hsrc, htgt, henc, hb, hout, ?_⟩
          by_cases hclean : cleanTokens output_tokens = []
          · exact Or.inl ⟨hclean,
              translate_clean_nil x e input_text hr ht hsrc htgt hne henc hb hout hclean⟩
          · refine Or.inr ?_
            have hdr := translate_Decode_result x e input_text hr ht hsrc htgt hne henc hb
              hout hclean
            cases hd : x.Decode g (cleanTokens output_tokens) with
            | error what =>
              rw [hdr, hd] at hno
              exact absurd (hs what) hno
            | ok p =>
              obtain ⟨ok, d⟩ := p
              cases ok with
              | false =>
                rw [hdr, hd] at hno
                exact absurd h2 hno
              | true =>
                refine ⟨d, rfl, ?_⟩
                rw [hdr, hd]

/-! ### The claims -/

/-- C1: the text produced by the post-processing of `translate` (marker replacement, then
trimming) never contains the byte sequence 0xE2 0x96 0x81, for any decoded byte string; hence
a result of `translate` that is not a failure (no failing exit, or no sentinel start) is free
of the marker, whatever the collaborators return. -/
theorem translate_output_marker_free :
    (∀ decoded_text : Bytes, ¬ marker <:+: postProcess decoded_text) ∧
    (∀ (T SP : Type) (x : Externals T SP) (e : TranslationEngine T SP) (input_text : Bytes),
      ((translateRun x e input_text).exit.failed = false ∨
          ¬ errorSentinel <+: translate x e input_text) →
        ¬ marker <:+: translate x e input_text) := by
  refine ⟨postProcess_no_marker, ?_⟩
  intro T SP x e input_text h
  have hnil : ¬ marker <:+: ([] : Bytes) := by decide
  unfold translate at h ⊢
  rcases translateRun_cases x e input_text _ rfl with
    ⟨hf, hp⟩ | ⟨_, _, ht⟩ | ⟨_, ht⟩ | ⟨_, _, _, _, _, _, _, d, _, _, _, _, _, _, ht⟩
  · rcases h with h | h
    · rw [hf] at h; exact absurd h (by simp)
    · exact absurd hp h
  · rw [ht]; exact hnil
  · rw [ht]; exact hnil
  · rw [ht]; exact postProcess_no_marker d

theorem translate_output_marker_free_witness :
    (translateRun (demo [] [marker ++ ascii "Hello", marker ++ ascii "world", ascii "!"])
        demoEngine (ascii "Hallo Welt!")).exit.failed = false ∧
    translate (demo [] [marker ++ ascii "Hello", marker ++ ascii "world", ascii "!"])
        demoEngine (ascii "Hallo Welt!") = ascii "Hello world!" ∧
    ¬ marker <:+: translate (demo [] [marker ++ ascii "Hello", marker ++ ascii "world", ascii "!"])
        demoEngine (ascii "Hallo Welt!") :=
  ⟨by decide, by decide,
    translate_output_marker_free.2 Unit Unit _ demoEngine (ascii "Hallo Welt!")
      (Or.inl (by decide))⟩

/-- C2: for a non-empty list of words, each non-empty and containing neither the marker nor
a space, tab, newline or carriage return, post-processing the decoded text in which every
word is preceded by one marker gives the words joined by single spaces. -/
theorem postProcess_marked_words (words : List Bytes) (hne : words ≠ [])
    (hwords : ∀ w ∈ words, w ≠ [] ∧ ¬ marker <:+: w ∧ ∀ c ∈ w, c ∉ trimSet) :
    postProcess (markedText words) = List.intercalate [32] words := by
  obtain ⟨w, ws, rfl⟩ := List.exists_cons_of_ne_nil hne
  exact postProcess_markedText w ws hwords

theorem postProcess_marked_words_witness :
    ([marker ++ ascii "Hello", marker ++ ascii "world", ascii "!"] : List Bytes).flatten
        = markedText [ascii "Hello", ascii "world!"] ∧
    List.intercalate [32] [ascii "Hello", ascii "world!"] = ascii "Hello world!" ∧
    postProcess (markedText [ascii "Hello", ascii "world!"])
        = List.intercalate [32] [ascii "Hello", ascii "world!"] :=
  ⟨by decide, by decide,
    postProcess_marked_words [ascii "Hello", ascii "world!"] (by decide) (by decide)⟩

/-- C3: the post-processing of `translate` (replace markers by spaces under the
last_was_space rule, then trim space, tab, newline and carriage return from both ends) is
idempotent on every byte string. -/
theorem postProcess_idempotent (s : Bytes) : postProcess (postProcess s) = postProcess s :=
  postProcess_idem s

/-- C4: when both source.spm and target.spm can be opened in the model directory, the
vocabulary search of `init` resolves the source path to model_dir/source.spm, the target
path to model_dir/target.spm and sets has_separate_vocabs to true, whatever other candidate
files exist; `init` then loads the two tokenizers from exactly these paths and the engine
keeps has_separate_vocabs = true. -/
theorem init_separate_vocabs {T SP : Type} (x : Externals T SP) (model_dir : String)
    (hsrc : x.fileGood (model_dir ++ "/source.spm") = true)
    (htgt : x.fileGood (model_dir ++ "/target.spm") = true) :
    (∀ b : Bool, resolveVocab x.fileGood model_dir b
        = ⟨model_dir ++ "/source.spm", model_dir ++ "/target.spm", true⟩) ∧
    (∀ (e : TranslationEngine T SP) (t : T), x.newTranslator model_dir = .ok t →
      init x e model_dir
        = loadTokenizers x
            { e with translator := some t, sp_source := some x.newProcessor,
                     sp_target := some x.newProcessor, has_separate_vocabs := true }
            (model_dir ++ "/source.spm") (model_dir ++ "/target.spm") ∧
      (init x e model_dir).2.has_separate_vocabs = true) := by
  have hres := fun b => resolveVocab_separate x.fileGood model_dir b hsrc htgt
  refine ⟨hres, ?_⟩
  intro e t ht
  have hinit : init x e model_dir
      = loadTokenizers x
          { e with translator := some t, sp_source := some x.newProcessor,
                   sp_target := some x.newProcessor, has_separate_vocabs := true }
          (model_dir ++ "/source.spm") (model_dir ++ "/target.spm") := by
    simp only [init, ht, hres]
  refine ⟨hinit, ?_⟩
  rw [hinit, loadTokenizers_flag]

theorem init_separate_vocabs_witness :
    resolveVocab
        (demo ["m/vocab.spm", "m/source.spm", "m/spm.model", "m/target.spm"] []).fileGood
        "m" false = ⟨"m/source.spm", "m/target.spm", true⟩ ∧
    (init (demo ["m/vocab.spm", "m/source.spm", "m/spm.model", "m/target.spm"] []) {}
        "m").2.has_separate_vocabs = true :=
  ⟨(init_separate_vocabs
      (demo ["m/vocab.spm", "m/source.spm", "m/spm.model", "m/target.spm"] []) "m"
      (by decide) (by decide)).1 false,
   ((init_separate_vocabs
      (demo ["m/vocab.spm", "m/source.spm", "m/spm.model", "m/target.spm"] []) "m"
      (by decide) (by decide)).2 {} () rfl).2⟩

/-- C5: when source.spm and target.spm cannot both be opened but at least one of vocab.spm,
sentencepiece.model, spm.model, source.spm, target.spm can, the first file of that list that
can be opened is resolved as both the source and the target vocabulary path and
has_separate_vocabs is set to false (shared vocabulary); `init` loads both tokenizers from
that one path. -/
theorem init_shared_vocab {T SP : Type} (x : Externals T SP) (model_dir : String)
    (hnot : ¬ (x.fileGood (model_dir ++ "/source.spm") = true ∧
      x.fileGood (model_dir ++ "/target.spm") = true))
    (hex : ∃ c ∈ shared_candidates model_dir, x.fileGood c = true) :
    ∃ earlier candidate later,
      [model_dir ++ "/vocab.spm", model_dir ++ "/sentencepiece.model",
        model_dir ++ "/spm.model", model_dir ++ "/source.spm", model_dir ++ "/target.spm"]
          = earlier ++ candidate :: later ∧
      (∀ p ∈ earlier, x.fileGood p = false) ∧ x.fileGood candidate = true ∧
      (∀ b : Bool, resolveVocab x.fileGood model_dir b = ⟨candidate, candidate, false⟩) ∧
      (∀ (e : TranslationEngine T SP) (t : T), x.newTranslator model_dir = .ok t →
        init x e model_dir
          = loadTokenizers x
              { e with translator := some t, sp_source := some x.newProcessor,
                       sp_target := some x.newProcessor, has_separate_vocabs := false }
              candidate candidate ∧
        (init x e model_dir).2.has_separate_vocabs = false) := by
  have hsome : ∃ c, (shared_candidates model_dir).find? x.fileGood = some c := by
    cases hf : (shared_candidates model_dir).find? x.fileGood with
    | some c => exact ⟨c, rfl⟩
    | none =>
      obtain ⟨c, hc, hg⟩ := hex
      rw [List.find?_eq_none] at hf
      exact absurd hg (hf c hc)
  obtain ⟨c, hc⟩ := hsome
  obtain ⟨hgood, earlier, later, hsplit, hearlier⟩ := List.find?_eq_some.1 hc
  have hres := fun b => resolveVocab_shared x.fileGood model_dir b c hnot hc
  refine ⟨earlier, c, later, hsplit, ?_, hgood, hres, ?_⟩
  · intro p hp
    simpa using hearlier p hp
  · intro e t ht
    have hinit : init x e model_dir
        = loadTokenizers x
            { e with translator := some t, sp_source := some x.newProcessor,
                     sp_target := some x.newProcessor, has_separate_vocabs := false }
            c c := by
      simp only [init, ht, hres]
    refine ⟨hinit, ?_⟩
    rw [hinit, loadTokenizers_flag]

theorem init_shared_vocab_witness :
    ¬ ((demo ["m/vocab.spm"] []).fileGood ("m" ++ "/source.spm") = true ∧
        (demo ["m/vocab.spm"] []).fileGood ("m" ++ "/target.spm") = true) ∧
    (demo ["m/vocab.spm"] []).fileGood "m/vocab.spm" = true ∧
    resolveVocab (demo ["m/vocab.spm"] []).fileGood "m" true
        = ⟨"m/vocab.spm", "m/vocab.spm", false⟩ ∧
    (init (demo ["m/vocab.spm"] []) {} "m").2.has_separate_vocabs = false := by
  obtain ⟨earlier, candidate, later, -, -, -, hres, hinit⟩ :=
    init_shared_vocab (demo ["m/vocab.spm"] []) "m" (by decide)
      ⟨"m/vocab.spm", by decide, by decide⟩
  have hc : candidate = "m/vocab.spm" := by
    have h1 := hres true
    have h2 : resolveVocab (demo ["m/vocab.spm"] []).fileGood "m" true
        = ⟨"m/vocab.spm", "m/vocab.spm", false⟩ := by decide
    rw [h2] at h1
    exact (congrArg VocabPaths.source_vocab h1).symm
  subst hc
  exact ⟨by decide, by decide, hres true, (hinit {} () rfl).2⟩

/-- C6, as amended: every failed call of `translate` returns a string that begins with
"ERROR: ": when the engine is not Ready, when the source tokenizer, the runtime, the first
result or the target tokenizer throws, when the runtime gives no result or an empty first
output, and when the target tokenizer reports a status that is not ok. A result without
this start therefore comes from the empty input, from an output with only reserved tokens,
or from a successful decode. A legitimate translation is returned as the post-processed
decoded text, whatever that text begins with. -/
theorem failed_translate_has_sentinel {T SP : Type} (x : Externals T SP)
    (e : TranslationEngine T SP) (input_text : Bytes) :
    (¬ Ready e →
      translate x e input_text = ascii "ERROR: Engine not ready" ∧
        errorSentinel <+: translate x e input_text) ∧
    (∀ (translator : T) (sp_source sp_target : SP), e.ready = true →
      e.translator = some translator → e.sp_source = some sp_source →
      e.sp_target = some sp_target → input_text ≠ [] →
      (∀ what, x.Encode sp_source input_text = .error what →
        translate x e input_text = errorSentinel ++ what ∧
          errorSentinel <+: translate x e input_text) ∧
      (∀ encoded, x.Encode sp_source input_text = .ok encoded →
        (∀ what,
          x.translate_batch translator [encoded ++ [ascii "</s>"]] options = .error what →
          translate x e input_text = errorSentinel ++ what ∧
            errorSentinel <+: translate x e input_text) ∧
        (x.translate_batch translator [encoded ++ [ascii "</s>"]] options = .ok [] →
          translate x e input_text = ascii "ERROR: Empty result" ∧
            errorSentinel <+: translate x e input_text) ∧
        (∀ what rest,
          x.translate_batch translator [encoded ++ [ascii "</s>"]] options
            = .ok (.error what :: rest) →
          translate x e input_text = errorSentinel ++ what ∧
            errorSentinel <+: translate x e input_text) ∧
        (∀ rest,
          x.translate_batch translator [encoded ++ [ascii "</s>"]] options
            = .ok (.ok [] :: rest) →
          translate x e input_text = ascii "ERROR: Empty result" ∧
            errorSentinel <+: translate x e input_text) ∧
        (∀ output_tokens rest,
          x.translate_batch translator [encoded ++ [ascii "</s>"]] options
            = .ok (.ok output_tokens :: rest) →
          output_tokens ≠ [] → cleanTokens output_tokens ≠ [] →
          (∀ what, x.Decode sp_target (cleanTokens output_tokens) = .error what →
            translate x e input_text = errorSentinel ++ what ∧
              errorSentinel <+: translate x e input_text) ∧
          (∀ decoded_text,
            x.Decode sp_target (cleanTokens output_tokens) = .ok (false, decoded_text) →
            translate x e input_text = ascii "ERROR: Decoding failed" ∧
              errorSentinel <+: translate x e input_text) ∧
          (∀ decoded_text,
            x.Decode sp_target (cleanTokens output_tokens) = .ok (true, decoded_text) →
            translate x e input_text = postProcess decoded_text)))) ∧
    (¬ errorSentinel <+: translate x e input_text →
      Ready e ∧
      ((input_text = [] ∧ translate x e input_text = []) ∨
        ∃ translator sp_source sp_target encoded rest output_tokens,
          e.translator = some translator ∧ e.sp_source = some sp_source ∧
          e.sp_target = some sp_target ∧
          x.Encode sp_source input_text = .ok encoded ∧
          x.translate_batch translator [encoded ++ [ascii "</s>"]] options
            = .ok (.ok output_tokens :: rest) ∧
          output_tokens ≠ [] ∧
          ((cleanTokens output_tokens = [] ∧ translate x e input_text = []) ∨
            ∃ decoded_text,
              x.Decode sp_target (cleanTokens output_tokens) = .ok (true, decoded_text) ∧
              translate x e input_text = postProcess decoded_text))) := by
  have hs : ∀ what : Bytes, errorSentinel <+: errorSentinel ++ what := fun what => ⟨what, rfl⟩
  have h1 : errorSentinel <+: ascii "ERROR: Empty result" := by decide
  have h2 : errorSentinel <+: ascii "ERROR: Decoding failed" := by decide
  have h3 : errorSentinel <+: ascii "ERROR: Engine not ready" := by decide
  refine ⟨?_, ?_, ?_⟩
  · intro hnr
    have ht := translate_not_Ready x e input_text hnr
    rw [ht]
    exact ⟨rfl, h3⟩
  · intro translator sp_source sp_target hr ht hsrc htgt hne
    refine ⟨?_, ?_⟩
    · intro what henc
      have h := translate_Encode_error x e input_text hr ht hsrc htgt hne henc
      rw [h]; exact ⟨rfl, hs what⟩
    · intro encoded henc
      refine ⟨?_, ?_, ?_, ?_, ?_⟩
      · intro what hb
        have h := translate_batch_error x e input_text hr ht hsrc htgt hne henc hb
        rw [h]; exact ⟨rfl, hs what⟩
      · intro hb
        have h := translate_batch_nil x e input_text hr ht hsrc htgt hne henc hb
        rw [h]; exact ⟨rfl, h1⟩
      · intro what rest hb
        have h := translate_output_error x e input_text hr ht hsrc htgt hne henc hb
        rw [h]; exact ⟨rfl, hs what⟩
      · intro rest hb
        have h := translate_output_nil x e input_text hr ht hsrc htgt hne henc hb
        rw [h]; exact ⟨rfl, h1⟩
      · intro output_tokens rest hb hout hclean
        refine ⟨?_, ?_, ?_⟩
        · intro what hd
          have h := translate_Decode_result x e input_text hr ht hsrc htgt hne henc hb hout
            hclean
          rw [h, hd]; exact ⟨rfl, hs what⟩
        · intro d hd
          have h := translate_Decode_result x e input_text hr ht hsrc htgt hne henc hb hout
            hclean
          rw [h, hd]; exact ⟨rfl, h2⟩
        · intro d hd
          have h := translate_Decode_result x e input_text hr ht hsrc htgt hne henc hb hout
            hclean
          rw [h, hd]
  · intro hno
    exact translate_without_sentinel x e input_text hno

theorem failed_translate_has_sentinel_witness :
    (translate demoThrow ({} : TranslationEngine Unit Unit) (ascii "Hallo")
        = ascii "ERROR: Engine not ready") ∧
    (translate demoThrow demoEngine (ascii "Hallo") = ascii "ERROR: boom" ∧
      errorSentinel <+: translate demoThrow demoEngine (ascii "Hallo")) ∧
    (translate (demo [] []) demoEngine (ascii "Hallo") = ascii "ERROR: Empty result" ∧
      errorSentinel <+: translate (demo [] []) demoEngine (ascii "Hallo")) ∧
    (translate (demoBadDecode [ascii "Hi"]) demoEngine (ascii "Hallo")
        = ascii "ERROR: Decoding failed" ∧
      errorSentinel <+: translate (demoBadDecode [ascii "Hi"]) demoEngine (ascii "Hallo")) ∧
    translate (demo [] [ascii "Hi"]) demoEngine (ascii "Hallo") = postProcess (ascii "Hi") :=
  ⟨((failed_translate_has_sentinel demoThrow {} (ascii "Hallo")).1
      (fun h => absurd h.1 (by decide))).1,
   ((failed_translate_has_sentinel demoThrow demoEngine (ascii "Hallo")).2.1 () () ()
      (by decide) (by decide) (by decide) (by decide) (by decide)).1 (ascii "boom") rfl,
   ((((failed_translate_has_sentinel (demo [] []) demoEngine (ascii "Hallo")).2.1 () () ()
      (by decide) (by decide) (by decide) (by decide) (by decide)).2
        [ascii "Hallo"] rfl).2.2.2.1) [] rfl,
   (((((failed_translate_has_sentinel (demoBadDecode [ascii "Hi"]) demoEngine
      (ascii "Hallo")).2.1 () () () (by decide) (by decide) (by decide) (by decide)
        (by decide)).2 [ascii "Hallo"] rfl).2.2.2.2) [ascii "Hi"] [] rfl (by decide)
          (by decide)).2.1 [] rfl,
   (((((failed_translate_has_sentinel (demo [] [ascii "Hi"]) demoEngine
      (ascii "Hallo")).2.1 () () () (by decide) (by decide) (by decide) (by decide)
        (by decide)).2 [ascii "Hallo"] rfl).2.2.2.2) [ascii "Hi"] [] rfl (by decide)
          (by decide)).2.2 (ascii "Hi") rfl⟩

/-- C6, counterexample: on a Ready engine whose runtime answers with the tokens "▁ERROR:"
and "▁oops", `translate` leaves through its normal exit, without any failure, and returns
"ERROR: oops", a string that begins with the sentinel. -/
theorem legitimate_translation_starts_with_sentinel :
    Ready demoEngine ∧
    (translateRun (demo [] [marker ++ ascii "ERROR:", marker ++ ascii "oops"]) demoEngine
        (ascii "Fehler: hoppla")).exit = .translated ∧
    translate (demo [] [marker ++ ascii "ERROR:", marker ++ ascii "oops"]) demoEngine
        (ascii "Fehler: hoppla") = ascii "ERROR: oops" ∧
    ascii "ERROR: " <+: translate (demo [] [marker ++ ascii "ERROR:", marker ++ ascii "oops"])
        demoEngine (ascii "Fehler: hoppla") :=
  ⟨⟨by decide, by decide, by decide, by decide⟩, by decide, by decide, by decide⟩

/-- C7, as amended: the output-token filter keeps exactly the runtime tokens that are not
equal to "<s>", "<pad>" or "</s>", in their order, and when `translate` leaves through its
normal exit the returned string is the post-processing of what the target tokenizer decodes
from these filtered tokens. -/
theorem translate_decodes_clean_tokens :
    (∀ (output_tokens : List Bytes) (token : Bytes),
      token ∈ cleanTokens output_tokens ↔
        token ∈ output_tokens ∧ token ≠ ascii "<s>" ∧ token ≠ ascii "<pad>" ∧
          token ≠ ascii "</s>") ∧
    (∀ output_tokens : List Bytes, (cleanTokens output_tokens).Sublist output_tokens) ∧
    (∀ (T SP : Type) (x : Externals T SP) (e : TranslationEngine T SP) (input_text : Bytes),
      (translateRun x e input_text).exit = .translated →
      ∃ translator sp_source sp_target encoded rest output_tokens decoded_text,
        e.translator = some translator ∧ e.sp_source = some sp_source ∧
        e.sp_target = some sp_target ∧
        x.Encode sp_source input_text = .ok encoded ∧
        x.translate_batch translator [encoded ++ [ascii "</s>"]] options
          = .ok (.ok output_tokens :: rest) ∧
        x.Decode sp_target (cleanTokens output_tokens) = .ok (true, decoded_text) ∧
        translate x e input_text = postProcess decoded_text) := by
  refine ⟨?_, ?_, ?_⟩
  · intro output_tokens token
    simp [cleanTokens, and_assoc]
  · intro output_tokens
    exact List.filter_sublist _
  · intro T SP x e input_text h
    unfold translate
    rcases translateRun_cases x e input_text _ rfl with
      ⟨hf, _⟩ | ⟨hx, _, _⟩ | ⟨hx, _⟩ | ⟨_, hex⟩
    · rw [h] at hf; exact absurd hf (by decide)
    · rw [h] at hx; exact absurd hx (by decide)
    · rw [h] at hx; exact absurd hx (by decide)
    · exact hex

theorem translate_decodes_clean_tokens_witness :
    (translateRun (demo [] [ascii "<s>", marker ++ ascii "Hi", ascii "</s>", ascii "<pad>"])
        demoEngine (ascii "Hallo")).exit = .translated ∧
    cleanTokens [ascii "<s>", marker ++ ascii "Hi", ascii "</s>", ascii "<pad>"]
        = [marker ++ ascii "Hi"] ∧
    translate (demo [] [ascii "<s>", marker ++ ascii "Hi", ascii "</s>", ascii "<pad>"])
        demoEngine (ascii "Hallo") = postProcess (marker ++ ascii "Hi") ∧
    postProcess (marker ++ ascii "Hi") = ascii "Hi" := by
  obtain ⟨_, _, _, _, _, output_tokens, decoded_text, -, -, -, -, hbatch, hdec, htext⟩ :=
    translate_decodes_clean_tokens.2.2 Unit Unit
      (demo [] [ascii "<s>", marker ++ ascii "Hi", ascii "</s>", ascii "<pad>"])
      demoEngine (ascii "Hallo") (by decide)
  have hout : output_tokens = [ascii "<s>", marker ++ ascii "Hi", ascii "</s>", ascii "<pad>"] := by
    simp only [demo, Except.ok.injEq, List.cons.injEq] at hbatch
    exact hbatch.1.symm
  subst hout
  have hclean : cleanTokens [ascii "<s>", marker ++ ascii "Hi", ascii "</s>", ascii "<pad>"]
      = [marker ++ ascii "Hi"] := by decide
  rw [hclean] at hdec
  have hd : decoded_text = marker ++ ascii "Hi" := by
    simp only [demo, Except.ok.injEq, Prod.mk.injEq, true_and] at hdec
    rw [← hdec]
    simp
  subst hd
  exact ⟨by decide, hclean, htext, by decide⟩

/-- C7, counterexample: on a Ready engine whose runtime answers with the two tokens "▁<s"
and ">", neither of which is a reserved token, `translate` succeeds and returns "<s>", a
string that contains the reserved control token "<s>". -/
theorem successful_output_contains_reserved_token :
    Ready demoEngine ∧
    cleanTokens [marker ++ ascii "<s", ascii ">"] = [marker ++ ascii "<s", ascii ">"] ∧
    (translateRun (demo [] [marker ++ ascii "<s", ascii ">"]) demoEngine
        (ascii "Hallo")).exit = .translated ∧
    ¬ ascii "ERROR: " <+: translate (demo [] [marker ++ ascii "<s", ascii ">"]) demoEngine
        (ascii "Hallo") ∧
    ascii "<s>" <:+: translate (demo [] [marker ++ ascii "<s", ascii ">"]) demoEngine
        (ascii "Hallo") :=
  ⟨⟨by decide, by decide, by decide, by decide⟩, by decide, by decide, by decide, by decide⟩

/-- C8, as amended: when `init` returns false on an engine that was not Ready, the engine is
not Ready after that call, and after any later sequence of `init` calls its ready flag is
true exactly when one of these calls returned true; as long as all of them return false,
`translate` keeps returning "ERROR: Engine not ready". -/
theorem ready_after_failed_init {T SP : Type} (x : Externals T SP)
    (e : TranslationEngine T SP) (model_dir : String) (hready : e.ready = false)
    (hfail : (init x e model_dir).1 = false) :
    (init x e model_dir).2.ready = false ∧
    ∀ later : List String,
      (initSeq x (init x e model_dir).2 later).2.ready
        = (initSeq x (init x e model_dir).2 later).1.any id ∧
      ((initSeq x (init x e model_dir).2 later).1.any id = false →
        ∀ (y : Externals T SP) (input_text : Bytes),
          translate y (initSeq x (init x e model_dir).2 later).2 input_text
            = ascii "ERROR: Engine not ready") := by
  have h0 : (init x e model_dir).2.ready = false := by
    rw [init_ready, hready, hfail]; rfl
  refine ⟨h0, fun later => ?_⟩
  have h1 : (initSeq x (init x e model_dir).2 later).2.ready
      = (initSeq x (init x e model_dir).2 later).1.any id := by
    rw [initSeq_ready, h0]; simp
  refine ⟨h1, fun hall y input_text => ?_⟩
  unfold translate
  rw [translateRun_not_ready y _ input_text (by rw [h1, hall])]

theorem ready_after_failed_init_witness :
    (init (demo ["good/vocab.spm"] []) {} "bad").1 = false ∧
    (initSeq (demo ["good/vocab.spm"] []) (init (demo ["good/vocab.spm"] []) {} "bad").2
        ["worse", "bad"]).1 = [false, false] ∧
    translate (demo [] [ascii "Hi"])
        (initSeq (demo ["good/vocab.spm"] []) (init (demo ["good/vocab.spm"] []) {} "bad").2
          ["worse", "bad"]).2 (ascii "Hallo") = ascii "ERROR: Engine not ready" :=
  ⟨by decide, by decide,
    ((ready_after_failed_init (demo ["good/vocab.spm"] []) {} "bad" rfl (by decide)).2
      ["worse", "bad"]).2 (by decide) (demo [] [ascii "Hi"]) (ascii "Hallo")⟩

/-- C8, counterexample: on a fresh engine `init` on a directory without vocabulary files
returns false; a later `init` on a complete directory returns true, the engine is Ready and
`translate` no longer returns the not-ready sentinel. -/
theorem failed_init_is_not_terminal :
    (init (demo ["good/vocab.spm"] [ascii "Hi"]) {} "bad").1 = false ∧
    (initSeq (demo ["good/vocab.spm"] [ascii "Hi"])
        (init (demo ["good/vocab.spm"] [ascii "Hi"]) {} "bad").2 ["good"]).1 = [true] ∧
    (initSeq (demo ["good/vocab.spm"] [ascii "Hi"])
        (init (demo ["good/vocab.spm"] [ascii "Hi"]) {} "bad").2 ["good"]).2.ready = true ∧
    translate (demo ["good/vocab.spm"] [ascii "Hi"])
        (initSeq (demo ["good/vocab.spm"] [ascii "Hi"])
          (init (demo ["good/vocab.spm"] [ascii "Hi"]) {} "bad").2 ["good"]).2
        (ascii "Hallo") = ascii "Hi" :=
  ⟨by decide, by decide, by decide, by decide⟩

/-- C9: on a fresh engine and a model directory in which none of source.spm, target.spm,
vocab.spm, sentencepiece.model, spm.model can be opened, `init` returns false whether or
not the inference model loads (a throwing collaborator is caught: `init` always returns a
value), the ready flag stays false and `translate` returns "ERROR: Engine not ready". -/
theorem init_without_vocabulary {T SP : Type} (x : Externals T SP) (model_dir : String)
    (h1 : x.fileGood (model_dir ++ "/source.spm") = false)
    (h2 : x.fileGood (model_dir ++ "/target.spm") = false)
    (h3 : x.fileGood (model_dir ++ "/vocab.spm") = false)
    (h4 : x.fileGood (model_dir ++ "/sentencepiece.model") = false)
    (h5 : x.fileGood (model_dir ++ "/spm.model") = false) :
    (init x {} model_dir).1 = false ∧ (init x {} model_dir).2.ready = false ∧
    ∀ (y : Externals T SP) (input_text : Bytes),
      translate y (init x {} model_dir).2 input_text = ascii "ERROR: Engine not ready" := by
  have hall : ∀ c ∈ shared_candidates model_dir, x.fileGood c = false := by
    intro c hc
    simp only [shared_candidates, List.mem_cons, List.mem_singleton, List.not_mem_nil,
      or_false] at hc
    rcases hc with rfl | rfl | rfl | rfl | rfl <;> assumption
  have hret : (init x {} model_dir).1 = false := by
    unfold init
    split
    · rfl
    · rw [resolveVocab_none x.fileGood model_dir _ hall, loadTokenizers_empty]
  have hflag : (init x {} model_dir).2.ready = false := by
    rw [init_ready, hret]; rfl
  refine ⟨hret, hflag, fun y input_text => ?_⟩
  unfold translate
  rw [translateRun_not_ready y _ input_text hflag]

theorem init_without_vocabulary_witness :
    ((init (demo ["m/model.bin"] []) {} "m").1 = false ∧
      (init (demo ["m/model.bin"] []) {} "m").2.ready = false ∧
      translate (demo [] [ascii "Hi"]) (init (demo ["m/model.bin"] []) {} "m").2
        (ascii "Hallo") = ascii "ERROR: Engine not ready") ∧
    ((init (demoNoModel ["m/readme.txt"]) {} "m").1 = false ∧
      (init (demoNoModel ["m/readme.txt"]) {} "m").2.ready = false ∧
      translate (demo [] [ascii "Hi"]) (init (demoNoModel ["m/readme.txt"]) {} "m").2
        (ascii "Hallo") = ascii "ERROR: Engine not ready") :=
  have h1 := init_without_vocabulary (demo ["m/model.bin"] []) "m" (by decide) (by decide)
    (by decide) (by decide) (by decide)
  have h2 := init_without_vocabulary (demoNoModel ["m/readme.txt"]) "m" (by decide)
    (by decide) (by decide) (by decide) (by decide)
  ⟨⟨h1.1, h1.2.1, h1.2.2 (demo [] [ascii "Hi"]) (ascii "Hallo")⟩,
   ⟨h2.1, h2.2.1, h2.2.2 (demo [] [ascii "Hi"]) (ascii "Hallo")⟩⟩

/-- C10: on every Ready engine, in particular on every engine reached from a fresh one by
`init` calls whose ready flag is set, `translate` of the empty string returns the empty
string through the early exit, with no call to the source tokenizer, the runtime or the
target tokenizer, whatever these collaborators would return or throw. -/
theorem translate_empty_input {T SP : Type} :
    (∀ (x : Externals T SP) (e : TranslationEngine T SP), Ready e →
      translate x e [] = [] ∧ (translateRun x e []).calls = [] ∧
        (translateRun x e []).exit = .emptyInput) ∧
    (∀ (x y : Externals T SP) (dirs : List String), (initSeq x {} dirs).2.ready = true →
      translate y (initSeq x {} dirs).2 [] = [] ∧
        (translateRun y (initSeq x {} dirs).2 []).calls = [] ∧
        (translateRun y (initSeq x {} dirs).2 []).exit = .emptyInput) := by
  have key : ∀ (x : Externals T SP) (e : TranslationEngine T SP), Ready e →
      translate x e [] = [] ∧ (translateRun x e []).calls = [] ∧
        (translateRun x e []).exit = .emptyInput := by
    intro x e h
    unfold translate
    rw [translateRun_empty x e h]
    exact ⟨rfl, rfl, rfl⟩
  refine ⟨key, fun x y dirs h => key y _ (initSeq_sane x dirs {} fresh_sane h)⟩

theorem translate_empty_input_witness :
    Ready demoEngine ∧
    translate (demoNoModel []) demoEngine [] = [] ∧
    (translateRun (demoNoModel []) demoEngine []).calls = [] ∧
    (translateRun (demoNoModel []) demoEngine []).exit = .emptyInput :=
  ⟨⟨by decide, by decide, by decide, by decide⟩,
    translate_empty_input.1 (demoNoModel []) demoEngine
      ⟨by decide, by decide, by decide, by decide⟩⟩

end Translator
